import Mathlib

/-!
# Verification of the chess-puzzle move-legality and board-state engine

Shallow embedding of the core functions of `js/chess.ts`:
`algebraicToIndices`, `indicesToAlgebraic`, `fenToBoard`, `isValidMove`,
`makeMove`.  JavaScript numbers appearing as board indices are modelled as
`Int` (all arithmetic performed on them here is exact integer arithmetic);
strings are Lean `String`s, with characters as Unicode code points; the JS
`null` cell is `Option.none`; a JS runtime `TypeError` (the only fault the
embedded code can raise, from indexing `undefined`) is `Except.error`.

A board is modelled as a total function from a pair of integer indices to an
optional piece character, mirroring `boardState[row][col]`: within the move
engine every access is made with both indices in `[0,7]` whenever the two
square arguments parse, so the behaviour on out-of-range indices is never
consulted.  `fenToBoard`, whose unguarded rank index *can* reach row 8 and
fault, is modelled separately over the concrete `8 × 8` list grid it builds.
-/

namespace Chess

/-- The 2D-index pair returned by `algebraicToIndices` (`{row, col}`). -/
structure AlgebraicMapping where
  row : Int
  col : Int
deriving DecidableEq, Repr

/-- The TS union type `PlayerTurn = 'w' | 'b'`. -/
inductive PlayerTurn where
  | w : PlayerTurn
  | b : PlayerTurn
deriving DecidableEq, Repr

/-- A board cell: a piece character or `null`. -/
abbrev SquareState := Option Char

/-- The board as read by the move engine: `boardState[row][col]`. -/
abbrev Board := Int → Int → SquareState

/-- JS `parseInt(c)` on a one-character string: the digit value for an ASCII
decimal digit, `NaN` (here `none`) for anything else. -/
def parseIntChar (c : Char) : Option Int :=
  if '0' ≤ c ∧ c ≤ '9' then some ((c.toNat : Int) - 48) else none

/-- `algebraicToIndices` from `js/chess.ts`: a 2-character string whose first
character maps to a column via its code point minus `'a'`'s, and whose second
character parses as a digit giving `row = 8 - digit`; `null` (`none`) when the
length is not 2, the rank character is not a digit (the `isNaN(row)` check),
or either index falls outside `[0,7]`. -/
def algebraicToIndices (algebraic : String) : Option AlgebraicMapping :=
  match algebraic.data with
  | [file, rankChar] =>
    let col : Int := (file.toNat : Int) - 97
    match parseIntChar rankChar with
    | none => none
    | some d =>
      let row : Int := 8 - d
      if col < 0 ∨ col > 7 ∨ row < 0 ∨ row > 7 then none else some ⟨row, col⟩
  | _ => none

/-- `indicesToAlgebraic` from `js/chess.ts`: `null` outside `[0,7]²`, else the
file letter `'a' + col` followed by the rank digit `8 - row`. -/
def indicesToAlgebraic (row col : Int) : Option String :=
  if row < 0 ∨ row > 7 ∨ col < 0 ∨ col > 7 then none
  else some (String.mk [Char.ofNat (97 + col).toNat, Char.ofNat (48 + (8 - row)).toNat])

/-- The colour test used throughout `isValidMove`:
`piece === piece.toUpperCase()`. -/
def pieceIsWhite (piece : Char) : Bool := piece.toUpper = piece

/-- The wrong-side test of `isValidMove` step 3:
`(playerTurn === 'w' && !pieceIsWhite) || (playerTurn === 'b' && pieceIsWhite)`. -/
def wrongSide (playerTurn : PlayerTurn) (piece : Char) : Bool :=
  (playerTurn = PlayerTurn.w ∧ ¬pieceIsWhite piece) ∨
  (playerTurn = PlayerTurn.b ∧ pieceIsWhite piece)

/-- The friendly-destination test of `isValidMove` step 4: true when the
destination cell holds a piece of the mover's own colour. -/
def friendlyDest (boardState : Board) (toSq : AlgebraicMapping)
    (playerTurn : PlayerTurn) : Bool :=
  match boardState toSq.row toSq.col with
  | some destPiece =>
    (playerTurn = PlayerTurn.w ∧ pieceIsWhite destPiece) ∨
    (playerTurn = PlayerTurn.b ∧ ¬pieceIsWhite destPiece)
  | none => false

/-- One sliding-path emptiness loop of `isValidMove`:
`for (let i = 1; i < bound; i++) if (boardState[row + i*stepR][col + i*stepC]) return false; return true`.
`dist` is the number of strictly-intermediate squares, `bound - 1`. -/
def rayEmpty (boardState : Board) (row col stepR stepC : Int) (dist : Nat) : Bool :=
  (List.range dist).all fun i =>
    boardState (row + ((i : Int) + 1) * stepR) (col + ((i : Int) + 1) * stepC) = none

/-- `isValidMove` from `js/chess.ts`: pseudo-legality of a move, in the
source's evaluation order — parse both squares, require a piece of the side to
move at the source, reject a friendly destination, then dispatch on the piece
kind over the signed deltas.  Integer division `dr / absDr` mirrors the JS
expression; in every branch where the divisor is zero the subsequent loop is
empty in both semantics, so the division result is never consulted. -/
def isValidMove (boardState : Board) (fromAlgebraic toAlgebraic : String)
    (playerTurn : PlayerTurn) : Bool :=
  match algebraicToIndices fromAlgebraic, algebraicToIndices toAlgebraic with
  | some fromSq, some toSq =>
    match boardState fromSq.row fromSq.col with
    | none => false
    | some piece =>
      if wrongSide playerTurn piece then false
      else if friendlyDest boardState toSq playerTurn then false
      else
        let dr : Int := toSq.row - fromSq.row
        let dc : Int := toSq.col - fromSq.col
        let absDr : Nat := dr.natAbs
        let absDc : Nat := dc.natAbs
        match piece.toLower with
        | 'p' =>
          let moveDir : Int := if pieceIsWhite piece then -1 else 1
          if dc = 0 then
            if (boardState toSq.row toSq.col).isSome then false
            else if dr = moveDir then true
            else if dr = 2 * moveDir then
              let startingRank : Int := if pieceIsWhite piece then 6 else 1
              fromSq.row = startingRank ∧
                boardState (fromSq.row + moveDir) fromSq.col = none
            else false
          else if absDc = 1 ∧ dr = moveDir then (boardState toSq.row toSq.col).isSome
          else false
        | 'n' => (absDr = 2 ∧ absDc = 1) ∨ (absDr = 1 ∧ absDc = 2)
        | 'b' =>
          if absDr ≠ absDc then false
          else rayEmpty boardState fromSq.row fromSq.col
            (dr / (absDr : Int)) (dc / (absDc : Int)) (absDr - 1)
        | 'r' =>
          if dr ≠ 0 ∧ dc ≠ 0 then false
          else if dr = 0 then
            rayEmpty boardState fromSq.row fromSq.col 0 (dc / (absDc : Int)) (absDc - 1)
          else
            rayEmpty boardState fromSq.row fromSq.col (dr / (absDr : Int)) 0 (absDr - 1)
        | 'q' =>
          if absDr = absDc then
            rayEmpty boardState fromSq.row fromSq.col
              (dr / (absDr : Int)) (dc / (absDc : Int)) (absDr - 1)
          else if dr = 0 ∨ dc = 0 then
            if dr = 0 then
              rayEmpty boardState fromSq.row fromSq.col 0 (dc / (absDc : Int)) (absDc - 1)
            else
              rayEmpty boardState fromSq.row fromSq.col (dr / (absDr : Int)) 0 (absDr - 1)
          else false
        | 'k' => absDr ≤ 1 ∧ absDc ≤ 1
        | _ => false
  | _, _ => false

/-- The concrete grid `fenToBoard` builds:
`Array(8).fill(null).map(() => Array(8).fill(null))` with cells assigned. -/
abbrev GridBoard := List (List SquareState)

/-- The initial all-`null` `8 × 8` grid allocated by `fenToBoard`. -/
def emptyGrid : GridBoard := List.replicate 8 (List.replicate 8 none)

/-- The inner character loop of `fenToBoard` over one rank string, carrying the
grid and the column cursor.  A non-digit character is a piece: when
`colIndex < 8` it is written to `board[r][colIndex]` — which in JS throws a
`TypeError` when `r ≥ 8`, because `board[r]` is `undefined` (the grid has
exactly 8 rows); that fault is the `Except.error` case.  A digit advances the
cursor by its value. -/
def fenRankStep (g : GridBoard) (r : Nat) (colIndex : Nat) :
    List Char → Except Unit GridBoard
  | [] => Except.ok g
  | ch :: rest =>
    match parseIntChar ch with
    | none =>
      if colIndex < 8 then
        if r < 8 then
          fenRankStep (g.set r ((g.getD r []).set colIndex (some ch))) r
            (colIndex + 1) rest
        else Except.error ()
      else fenRankStep g r colIndex rest
    | some d => fenRankStep g r (colIndex + d.toNat) rest

/-- The outer rank loop of `fenToBoard`: `for (let r = 0; r < ranks.length; r++)`. -/
def fenRankLoop (g : GridBoard) (r : Nat) : List (List Char) → Except Unit GridBoard
  | [] => Except.ok g
  | rankStr :: rest =>
    match fenRankStep g r 0 rankStr with
    | Except.ok g2 => fenRankLoop g2 (r + 1) rest
    | Except.error e => Except.error e

/-- JS `String.prototype.split` with a one-character separator, over the
character list: the (possibly empty) segments between separator occurrences,
in order; the empty string yields `[[]]` as in JS. -/
def splitOnChar (sep : Char) : List Char → List (List Char)
  | [] => [[]]
  | c :: rest =>
    match splitOnChar sep rest with
    | [] => [[]]
    | cur :: done =>
      if c = sep then [] :: cur :: done
      else (c :: cur) :: done

/-- `fenToBoard` from `js/chess.ts`: split off the text before the first
space (`fenString.split(' ')[0]`), split that on `'/'` into rank strings, and
fill the freshly allocated `8 × 8` grid rank by rank. -/
def fenToBoard (fenString : String) : Except Unit GridBoard :=
  let piecePlacement : List Char := (splitOnChar ' ' fenString.data).headD []
  let ranks : List (List Char) := splitOnChar '/' piecePlacement
  fenRankLoop emptyGrid 0 ranks

/-- The 8 by 8 shape invariant of the grid `fenToBoard` builds. -/
def gridWF (g : GridBoard) : Prop := g.length = 8 ∧ ∀ row ∈ g, row.length = 8

/-- `makeMove` from `js/chess.ts`: if either square fails to parse, return the
input board unchanged; otherwise copy the board, place the source piece on the
destination cell, then empty the source cell (so when the two coincide the
final `null` write wins, as in the source's write order). -/
def makeMove (boardState : Board) (fromAlgebraic toAlgebraic : String) : Board :=
  match algebraicToIndices fromAlgebraic, algebraicToIndices toAlgebraic with
  | some fromSq, some toSq =>
    let piece : SquareState := boardState fromSq.row fromSq.col
    fun r c =>
      if r = fromSq.row ∧ c = fromSq.col then none
      else if r = toSq.row ∧ c = toSq.col then piece
      else boardState r c
  | _, _ => boardState

/-- A sample board used by witnesses: white pawn on e2 (row 6, col 4), white
king on e1, black king on e8, black pawn on d3 (row 5, col 3). -/
def sampleBoard : Board := fun r c =>
  if r = 6 ∧ c = 4 then some 'P'
  else if r = 7 ∧ c = 4 then some 'K'
  else if r = 0 ∧ c = 4 then some 'k'
  else if r = 5 ∧ c = 3 then some 'p'
  else none

/-- A sample board used by witnesses: a lone white king on e1 (row 7, col 4). -/
def kingSampleBoard : Board := fun r c =>
  if r = 7 ∧ c = 4 then some 'K' else none

/-- A sample board used by witnesses: a white rook on a1 (row 7, col 0) and a
black king on e8 (row 0, col 4). -/
def sliderSampleBoard : Board := fun r c =>
  if r = 7 ∧ c = 0 then some 'R'
  else if r = 0 ∧ c = 4 then some 'k'
  else none

/-- Bishop geometry as the spec states it: `|dr| = |dc|` and `|dr| > 0`. -/
def bishopGeom (dr dc : Int) : Prop := dr.natAbs = dc.natAbs ∧ 0 < dr.natAbs

/-- Rook geometry as the spec states it: exactly one of `dr`, `dc` is zero
and the other non-zero. -/
def rookGeom (dr dc : Int) : Prop := (dr = 0 ∧ dc ≠ 0) ∨ (dr ≠ 0 ∧ dc = 0)

/-- The movement geometry that matches a sliding piece: bishop diagonals,
rook ranks/files, and for the queen either. -/
def sliderGeom (piece : Char) (dr dc : Int) : Prop :=
  match piece.toLower with
  | 'b' => bishopGeom dr dc
  | 'r' => rookGeom dr dc
  | 'q' => bishopGeom dr dc ∨ rookGeom dr dc
  | _ => False

/-- Every square strictly between the two squares along the moved line — a
step of `sign dr` in the row and `sign dc` in the column — is empty. -/
def betweenEmpty (boardState : Board) (mf mt : AlgebraicMapping) : Prop :=
  ∀ j : Nat, 0 < j →
    j < max (mt.row - mf.row).natAbs (mt.col - mf.col).natAbs →
    boardState (mf.row + j * (mt.row - mf.row).sign)
      (mf.col + j * (mt.col - mf.col).sign) = none

/-- The board with the cell at `m` replaced by piece `p` and all other cells
unchanged (used to compare the queen against a rook or bishop on the same
square). -/
def replacePiece (boardState : Board) (m : AlgebraicMapping) (p : Char) : Board :=
  fun r c => if r = m.row ∧ c = m.col then some p else boardState r c

/-- A sample board used by witnesses: a lone white queen on d4 (row 4, col 3). -/
def queenSampleBoard : Board := fun r c =>
  if r = 4 ∧ c = 3 then some 'Q' else none

end Chess

namespace Chess

/-- Exact integer division by the absolute value gives the sign: the step
expressions `dr / absDr` of the sliding loops equal `sign dr`. -/
theorem div_natAbs_eq_sign (d : Int) (hd : d ≠ 0) : d / (d.natAbs : Int) = d.sign := by
  obtain ⟨n, rfl | rfl⟩ := Int.eq_nat_or_neg d
  · have hn : (n : Int) ≠ 0 := hd
    simp only [Int.natAbs_ofNat]
    rw [Int.ediv_self hn, Int.sign_natCast_of_ne_zero (by exact_mod_cast hn)]
  · have hn : (n : Int) ≠ 0 := by simpa using hd
    simp only [Int.natAbs_neg, Int.natAbs_ofNat]
    rw [show -(n : Int) = -1 * n by ring, Int.mul_ediv_cancel _ hn,
      show (-1 : Int) * n = -(n : Int) by ring, Int.sign_neg,
      Int.sign_natCast_of_ne_zero (by exact_mod_cast hn)]

/-- The sliding loop checks exactly the squares at offsets `1 .. n-1`. -/
theorem rayEmpty_iff (bs : Board) (r c sR sC : Int) (n : Nat) (hn : 0 < n) :
    rayEmpty bs r c sR sC (n - 1) = true ↔
      ∀ j : Nat, 0 < j → j < n → bs (r + j * sR) (c + j * sC) = none := by
  unfold rayEmpty
  rw [List.all_eq_true]
  constructor
  · intro h j hj1 hj2
    have hm : j - 1 ∈ List.range (n - 1) := by
      rw [List.mem_range]; omega
    have := h _ hm
    simp only [decide_eq_true_eq] at this
    have hc : ((j - 1 : Nat) : Int) + 1 = (j : Int) := by omega
    rwa [hc] at this
  · intro h i hi
    rw [List.mem_range] at hi
    simp only [decide_eq_true_eq]
    have hc : ((i : Nat) : Int) + 1 = ((i + 1 : Nat) : Int) := by omega
    rw [hc]
    exact h (i + 1) (by omega) (by omega)

/-- The horizontal sliding loop checks exactly the strictly-between squares. -/
theorem straight_horiz_iff (bs : Board) (mf mt : AlgebraicMapping)
    (h1 : mt.row - mf.row = 0) (h2 : mt.col - mf.col ≠ 0) :
    rayEmpty bs mf.row mf.col 0
        ((mt.col - mf.col) / ((mt.col - mf.col).natAbs : Int))
        ((mt.col - mf.col).natAbs - 1) = true ↔
      betweenEmpty bs mf mt := by
  rw [rayEmpty_iff _ _ _ _ _ _ (Int.natAbs_pos.mpr h2)]
  unfold betweenEmpty
  rw [div_natAbs_eq_sign _ h2]
  simp [h1]

/-- The vertical sliding loop checks exactly the strictly-between squares. -/
theorem straight_vert_iff (bs : Board) (mf mt : AlgebraicMapping)
    (h1 : mt.col - mf.col = 0) (h2 : mt.row - mf.row ≠ 0) :
    rayEmpty bs mf.row mf.col
        ((mt.row - mf.row) / ((mt.row - mf.row).natAbs : Int)) 0
        ((mt.row - mf.row).natAbs - 1) = true ↔
      betweenEmpty bs mf mt := by
  rw [rayEmpty_iff _ _ _ _ _ _ (Int.natAbs_pos.mpr h2)]
  unfold betweenEmpty
  rw [div_natAbs_eq_sign _ h2]
  simp [h1]

/-- The diagonal sliding loop checks exactly the strictly-between squares. -/
theorem diag_iff (bs : Board) (mf mt : AlgebraicMapping)
    (heq : (mt.row - mf.row).natAbs = (mt.col - mf.col).natAbs)
    (h2 : mt.row - mf.row ≠ 0) :
    rayEmpty bs mf.row mf.col
        ((mt.row - mf.row) / ((mt.row - mf.row).natAbs : Int))
        ((mt.col - mf.col) / ((mt.col - mf.col).natAbs : Int))
        ((mt.row - mf.row).natAbs - 1) = true ↔
      betweenEmpty bs mf mt := by
  have h3 : mt.col - mf.col ≠ 0 := by
    intro hc
    rw [hc] at heq
    simp at heq
    omega
  rw [rayEmpty_iff _ _ _ _ _ _ (Int.natAbs_pos.mpr h2)]
  unfold betweenEmpty
  rw [div_natAbs_eq_sign _ h2, div_natAbs_eq_sign _ h3]
  simp [heq]

/-- **C1.** With a pawn of the side to move on the source square and no
friendly piece on the destination, `isValidMove` accepts exactly: a single
push (`dc = 0`, `dr = forwardDir`, destination empty); a double push
(`dc = 0`, `dr = 2·forwardDir`, source on the colour's starting row, the
intermediate square empty, and the destination itself empty); or a diagonal
capture (`|dc| = 1`, `dr = forwardDir`, destination occupied).  The forward
direction is `-1` with starting row 6 for the uppercase side and `+1` with
starting row 1 for the lowercase side. -/
theorem isValidMove_pawn (boardState : Board)
    (fromAlgebraic toAlgebraic : String) (playerTurn : PlayerTurn)
    (mf mt : AlgebraicMapping)
    (hf : algebraicToIndices fromAlgebraic = some mf)
    (ht : algebraicToIndices toAlgebraic = some mt)
    (hp : (playerTurn = PlayerTurn.w ∧ boardState mf.row mf.col = some 'P') ∨
          (playerTurn = PlayerTurn.b ∧ boardState mf.row mf.col = some 'p'))
    (hdest : friendlyDest boardState mt playerTurn = false) :
    isValidMove boardState fromAlgebraic toAlgebraic playerTurn = true ↔
      ((mt.col - mf.col = 0 ∧
          mt.row - mf.row = (if playerTurn = PlayerTurn.w then -1 else 1) ∧
          boardState mt.row mt.col = none) ∨
       (mt.col - mf.col = 0 ∧
          mt.row - mf.row = 2 * (if playerTurn = PlayerTurn.w then -1 else 1) ∧
          mf.row = (if playerTurn = PlayerTurn.w then (6 : Int) else 1) ∧
          boardState (mf.row + (if playerTurn = PlayerTurn.w then -1 else 1))
            mf.col = none ∧
          boardState mt.row mt.col = none) ∨
       ((mt.col - mf.col).natAbs = 1 ∧
          mt.row - mf.row = (if playerTurn = PlayerTurn.w then -1 else 1) ∧
          (boardState mt.row mt.col).isSome = true)) := by
  rcases hp with ⟨h1, h2⟩ | ⟨h1, h2⟩ <;> subst h1 <;>
    simp only [isValidMove, hf, ht, h2, wrongSide, pieceIsWhite, hdest,
      if_true, if_false, reduceIte, Char.toLower] <;>
    norm_num <;>
    by_cases hdc : mt.col - mf.col = 0 <;>
    simp only [hdc, if_true, if_false] <;>
    split_ifs <;>
    simp_all <;> tauto

/-- Witness for C1: the double push e2→e4 from the sample board. -/
theorem isValidMove_pawn_witness :
    algebraicToIndices "e2" = some ⟨6, 4⟩ ∧
      algebraicToIndices "e4" = some (⟨4, 4⟩ : AlgebraicMapping) ∧
      sampleBoard 6 4 = some 'P' ∧
      friendlyDest sampleBoard ⟨4, 4⟩ PlayerTurn.w = false ∧
      (isValidMove sampleBoard "e2" "e4" PlayerTurn.w = true ↔
        (((4 : Int) - 4 = 0 ∧
            (4 : Int) - 6 = (if PlayerTurn.w = PlayerTurn.w then -1 else 1) ∧
            sampleBoard 4 4 = none) ∨
         ((4 : Int) - 4 = 0 ∧
            (4 : Int) - 6 = 2 * (if PlayerTurn.w = PlayerTurn.w then -1 else 1) ∧
            (6 : Int) = (if PlayerTurn.w = PlayerTurn.w then (6 : Int) else 1) ∧
            sampleBoard ((6 : Int) + (if PlayerTurn.w = PlayerTurn.w then -1 else 1)) 4 = none ∧
            sampleBoard 4 4 = none) ∨
         (((4 : Int) - 4).natAbs = 1 ∧
            (4 : Int) - 6 = (if PlayerTurn.w = PlayerTurn.w then -1 else 1) ∧
            (sampleBoard 4 4).isSome = true))) :=
  ⟨by decide, by decide, by decide, by decide,
    isValidMove_pawn sampleBoard "e2" "e4" PlayerTurn.w ⟨6, 4⟩ ⟨4, 4⟩
      (by decide) (by decide) (Or.inl ⟨rfl, by decide⟩) (by decide)⟩

/-- **C3.** For distinct valid squares, `makeMove` produces a board equal to
the input at every cell except that the destination now holds the piece the
input held at the source and the source is empty; any piece previously on the
destination is silently overwritten.  (The input board itself is untouched:
the result is a fresh value and `boardState` still denotes the old cells.) -/
theorem makeMove_frame (boardState : Board)
    (fromAlgebraic toAlgebraic : String) (mf mt : AlgebraicMapping)
    (hf : algebraicToIndices fromAlgebraic = some mf)
    (ht : algebraicToIndices toAlgebraic = some mt) (hne : mf ≠ mt) :
    ∀ r c : Int,
      makeMove boardState fromAlgebraic toAlgebraic r c =
        if r = mt.row ∧ c = mt.col then boardState mf.row mf.col
        else if r = mf.row ∧ c = mf.col then none
        else boardState r c := by
  intro r c
  have hd : ¬(mf.row = mt.row ∧ mf.col = mt.col) := by
    intro ⟨h1, h2⟩
    exact hne (by cases mf; cases mt; simp_all)
  simp only [makeMove, hf, ht]
  by_cases h1 : r = mf.row ∧ c = mf.col
  · have h2 : ¬(r = mt.row ∧ c = mt.col) := by
      rintro ⟨a, b⟩
      exact hd ⟨h1.1 ▸ a, h1.2 ▸ b⟩
    simp only [if_pos h1, if_neg h2]
  · by_cases h2 : r = mt.row ∧ c = mt.col
    · simp only [if_pos h2, if_neg h1]
    · simp only [if_neg h1, if_neg h2]

/-- Witness for C3: moving the e2 pawn to e4 on the sample board, checked at
the destination cell. -/
theorem makeMove_frame_witness :
    algebraicToIndices "e2" = some ⟨6, 4⟩ ∧
      algebraicToIndices "e4" = some (⟨4, 4⟩ : AlgebraicMapping) ∧
      (⟨6, 4⟩ : AlgebraicMapping) ≠ ⟨4, 4⟩ ∧
      makeMove sampleBoard "e2" "e4" 4 4 =
        (if (4 : Int) = 4 ∧ (4 : Int) = 4 then sampleBoard 6 4
         else if (4 : Int) = 6 ∧ (4 : Int) = 4 then none
         else sampleBoard 4 4) :=
  ⟨by decide, by decide, by decide,
    makeMove_frame sampleBoard "e2" "e4" ⟨6, 4⟩ ⟨4, 4⟩ (by decide) (by decide)
      (by decide) 4 4⟩

/-- **C5.** `algebraicToIndices` and `indicesToAlgebraic` are exact inverses
over the valid domain: every square `[f, rk]` with `f` in `'a'..'h'` and `rk`
in `'1'..'8'` round-trips through indices back to itself, and every index pair
in `[0,7]²` round-trips through its algebraic name back to itself. -/
theorem round_trip_algebraic_indices :
    (∀ f rk : Char, 'a' ≤ f → f ≤ 'h' → '1' ≤ rk → rk ≤ '8' →
      (algebraicToIndices (String.mk [f, rk])).bind
        (fun m => indicesToAlgebraic m.row m.col) = some (String.mk [f, rk])) ∧
    (∀ row col : Int, 0 ≤ row → row ≤ 7 → 0 ≤ col → col ≤ 7 →
      (indicesToAlgebraic row col).bind algebraicToIndices = some ⟨row, col⟩) := by
  constructor
  · intro f rk hf1 hf2 hr1 hr2
    have hf1' : 97 ≤ f.toNat := hf1
    have hf2' : f.toNat ≤ 104 := hf2
    have hr1' : 49 ≤ rk.toNat := hr1
    have hr2' : rk.toNat ≤ 56 := hr2
    have hf : f = Char.ofNat f.toNat := (Char.ofNat_toNat f).symm
    have hrk : rk = Char.ofNat rk.toNat := (Char.ofNat_toNat rk).symm
    rw [hf, hrk]
    generalize f.toNat = n at hf1' hf2'
    generalize rk.toNat = m at hr1' hr2'
    interval_cases n <;> interval_cases m <;> decide
  · intro row col hr0 hr7 hc0 hc7
    interval_cases row <;> interval_cases col <;> decide

/-- Witness for C5 at the concrete square `"e2"` and indices `(6, 4)`. -/
theorem round_trip_algebraic_indices_witness :
    (algebraicToIndices (String.mk ['e', '2'])).bind
        (fun m => indicesToAlgebraic m.row m.col) = some (String.mk ['e', '2']) ∧
    (indicesToAlgebraic 6 4).bind algebraicToIndices = some ⟨6, 4⟩ :=
  ⟨round_trip_algebraic_indices.1 'e' '2' (by decide) (by decide) (by decide)
      (by decide),
   round_trip_algebraic_indices.2 6 4 (by decide) (by decide) (by decide)
      (by decide)⟩

/-- **C8.** When either square string fails to parse, `makeMove` returns the
input board unchanged — a silent no-op fallback, not an error. -/
theorem makeMove_invalid_square_noop (boardState : Board)
    (fromAlgebraic toAlgebraic : String)
    (h : algebraicToIndices fromAlgebraic = none ∨
         algebraicToIndices toAlgebraic = none) :
    makeMove boardState fromAlgebraic toAlgebraic = boardState := by
  unfold makeMove
  rcases h with h | h
  · rw [h]
  · rw [h]
    cases algebraicToIndices fromAlgebraic <;> rfl

/-- Witness for C8 at the malformed source square `"zz"`. -/
theorem makeMove_invalid_square_noop_witness :
    algebraicToIndices "zz" = none ∧
      makeMove sampleBoard "zz" "e4" = sampleBoard :=
  ⟨by decide, makeMove_invalid_square_noop sampleBoard "zz" "e4"
      (Or.inl (by decide))⟩

/-- **C9.** A source piece whose case-encoded colour differs from the side to
move (`'w'` with a non-uppercase-coded piece, or `'b'` with an
uppercase-coded piece) makes `isValidMove` return false, whatever the piece
kind or destination. -/
theorem isValidMove_wrong_side (boardState : Board)
    (fromAlgebraic toAlgebraic : String) (playerTurn : PlayerTurn)
    (mf : AlgebraicMapping) (hf : algebraicToIndices fromAlgebraic = some mf)
    (piece : Char) (hp : boardState mf.row mf.col = some piece)
    (hw : (playerTurn = PlayerTurn.w ∧ pieceIsWhite piece = false) ∨
          (playerTurn = PlayerTurn.b ∧ pieceIsWhite piece = true)) :
    isValidMove boardState fromAlgebraic toAlgebraic playerTurn = false := by
  have hws : wrongSide playerTurn piece = true := by
    rcases hw with ⟨h1, h2⟩ | ⟨h1, h2⟩ <;> subst h1 <;> simp [wrongSide, h2]
  cases ht : algebraicToIndices toAlgebraic with
  | none => simp [isValidMove, hf, ht]
  | some mt => simp [isValidMove, hf, ht, hp, hws]

/-- Witness for C9: white to move, black pawn on d3 as the source. -/
theorem isValidMove_wrong_side_witness :
    algebraicToIndices "d3" = some ⟨5, 3⟩ ∧
      sampleBoard 5 3 = some 'p' ∧
      isValidMove sampleBoard "d3" "d2" PlayerTurn.w = false :=
  ⟨by decide, by decide,
    isValidMove_wrong_side sampleBoard "d3" "d2" PlayerTurn.w ⟨5, 3⟩ (by decide)
      'p' (by decide) (Or.inl ⟨rfl, by decide⟩)⟩

/-- **C10.** The null move from a valid square to itself is always rejected:
an empty source fails the piece check, and an occupied source makes the
destination a friendly piece, which the self-capture check rejects. -/
theorem isValidMove_null_move (boardState : Board) (s : String)
    (playerTurn : PlayerTurn) (m : AlgebraicMapping)
    (hs : algebraicToIndices s = some m) :
    isValidMove boardState s s playerTurn = false := by
  cases hp : boardState m.row m.col with
  | none => simp [isValidMove, hs, hp]
  | some piece =>
    by_cases hws : wrongSide playerTurn piece = true
    · simp [isValidMove, hs, hp, hws]
    · have hfd : friendlyDest boardState m playerTurn = true := by
        cases playerTurn <;> simp_all [wrongSide, friendlyDest, hp]
      simp [isValidMove, hs, hp, hws, hfd]

/-- **C7.** With a king of the side to move on the source square,
`isValidMove` accepts exactly the moves to a non-friendly destination with
`|dr| ≤ 1`, `|dc| ≤ 1`, and `(dr, dc) ≠ (0, 0)` — the code's king branch has
no explicit null-move test, but a zero delta makes the destination the king
itself, which the friendly-destination check rejects. -/
theorem isValidMove_king (boardState : Board)
    (fromAlgebraic toAlgebraic : String) (playerTurn : PlayerTurn)
    (mf mt : AlgebraicMapping)
    (hf : algebraicToIndices fromAlgebraic = some mf)
    (ht : algebraicToIndices toAlgebraic = some mt)
    (hk : (playerTurn = PlayerTurn.w ∧ boardState mf.row mf.col = some 'K') ∨
          (playerTurn = PlayerTurn.b ∧ boardState mf.row mf.col = some 'k')) :
    isValidMove boardState fromAlgebraic toAlgebraic playerTurn = true ↔
      friendlyDest boardState mt playerTurn = false ∧
      (mt.row - mf.row).natAbs ≤ 1 ∧ (mt.col - mf.col).natAbs ≤ 1 ∧
      ¬(mt.row - mf.row = 0 ∧ mt.col - mf.col = 0) := by
  have hnull : friendlyDest boardState mt playerTurn = false →
      ¬(mt.row - mf.row = 0 ∧ mt.col - mf.col = 0) := by
    rintro hfd ⟨h1, h2⟩
    have hr : mt.row = mf.row := by omega
    have hc : mt.col = mf.col := by omega
    rcases hk with ⟨h3, h4⟩ | ⟨h3, h4⟩ <;> subst h3 <;>
      simp [friendlyDest, hr, hc, h4, pieceIsWhite] at hfd
  by_cases hfd : friendlyDest boardState mt playerTurn = true
  · rcases hk with ⟨h3, h4⟩ | ⟨h3, h4⟩ <;> subst h3 <;>
      simp [isValidMove, hf, ht, h4, hfd, wrongSide, pieceIsWhite]
  · rw [Bool.not_eq_true] at hfd
    rcases hk with ⟨h3, h4⟩ | ⟨h3, h4⟩ <;> subst h3 <;>
      simp [isValidMove, hf, ht, h4, hfd, wrongSide, pieceIsWhite,
        hnull hfd, and_true]

/-- Witness for C7: white king e1 to e2 (one step, empty destination). -/
theorem isValidMove_king_witness :
    algebraicToIndices "e1" = some ⟨7, 4⟩ ∧
      algebraicToIndices "e2" = some (⟨6, 4⟩ : AlgebraicMapping) ∧
      kingSampleBoard 7 4 = some 'K' ∧
      (isValidMove kingSampleBoard "e1" "e2" PlayerTurn.w = true ↔
        friendlyDest kingSampleBoard ⟨6, 4⟩ PlayerTurn.w = false ∧
        ((6 : Int) - 7).natAbs ≤ 1 ∧ ((4 : Int) - 4).natAbs ≤ 1 ∧
        ¬((6 : Int) - 7 = 0 ∧ (4 : Int) - 4 = 0)) :=
  ⟨by decide, by decide, by decide,
    isValidMove_king kingSampleBoard "e1" "e2" PlayerTurn.w ⟨7, 4⟩ ⟨6, 4⟩
      (by decide) (by decide) (Or.inl ⟨rfl, by decide⟩)⟩

/-- Witness for C10: the white king standing still on e1. -/
theorem isValidMove_null_move_witness :
    algebraicToIndices "e1" = some ⟨7, 4⟩ ∧
      isValidMove sampleBoard "e1" "e1" PlayerTurn.w = false :=
  ⟨by decide,
    isValidMove_null_move sampleBoard "e1" PlayerTurn.w ⟨7, 4⟩ (by decide)⟩

/-- **C2.** With a rook, bishop, or queen of the side to move on the source
square, `isValidMove` accepts exactly the moves whose deltas match the piece's
geometry (bishop: `|dr| = |dc| > 0`; rook: exactly one of `dr`, `dc` zero;
queen: either), with every square strictly between source and destination
along the moved line empty and no friendly piece on the destination — so any
occupied intermediate square (of either colour) or friendly destination makes
it return false, and an empty destination or one holding the first enemy
piece on the line is accepted. -/
theorem isValidMove_slider (boardState : Board)
    (fromAlgebraic toAlgebraic : String) (playerTurn : PlayerTurn)
    (mf mt : AlgebraicMapping)
    (hf : algebraicToIndices fromAlgebraic = some mf)
    (ht : algebraicToIndices toAlgebraic = some mt)
    (piece : Char) (hp : boardState mf.row mf.col = some piece)
    (hkind : piece.toLower = 'r' ∨ piece.toLower = 'b' ∨ piece.toLower = 'q')
    (hside : wrongSide playerTurn piece = false) :
    isValidMove boardState fromAlgebraic toAlgebraic playerTurn = true ↔
      (sliderGeom piece (mt.row - mf.row) (mt.col - mf.col) ∧
       betweenEmpty boardState mf mt ∧
       friendlyDest boardState mt playerTurn = false) := by
  by_cases hfd : friendlyDest boardState mt playerTurn = true
  · rcases hkind with hk | hk | hk <;>
      simp [isValidMove, hf, ht, hp, hside, hfd, hk]
  · rw [Bool.not_eq_true] at hfd
    have hne : ¬(mt.row - mf.row = 0 ∧ mt.col - mf.col = 0) := by
      rintro ⟨hr0, hc0⟩
      have hr : mt.row = mf.row := by omega
      have hc : mt.col = mf.col := by omega
      cases playerTurn <;>
        simp [friendlyDest, hr, hc, hp, wrongSide] at hfd hside <;> simp_all
    rcases hkind with hk | hk | hk
    · -- rook
      simp only [isValidMove, hf, ht, hp, hside, hfd, Bool.false_eq_true,
        if_false, hk, sliderGeom, and_true]
      by_cases h1 : mt.row - mf.row = 0
      · have h2 : mt.col - mf.col ≠ 0 := fun hcc => hne ⟨h1, hcc⟩
        simp only [rookGeom]
        rw [if_neg (by tauto), if_pos h1, straight_horiz_iff boardState mf mt h1 h2]
        tauto
      · by_cases h2 : mt.col - mf.col = 0
        · simp only [rookGeom]
          rw [if_neg (by tauto), if_neg h1, straight_vert_iff boardState mf mt h2 h1]
          tauto
        · simp only [rookGeom]
          rw [if_pos ⟨h1, h2⟩]
          simp [h1, h2]
    · -- bishop
      simp only [isValidMove, hf, ht, hp, hside, hfd, Bool.false_eq_true,
        if_false, hk, sliderGeom, and_true]
      by_cases heq : (mt.row - mf.row).natAbs = (mt.col - mf.col).natAbs
      · have h2 : mt.row - mf.row ≠ 0 := by
          intro hr0
          apply hne
          constructor
          · exact hr0
          · rw [hr0] at heq; simp at heq; omega
        simp only [bishopGeom]
        rw [if_neg (by simp [heq]), diag_iff boardState mf mt heq h2]
        have : 0 < (mt.row - mf.row).natAbs := Int.natAbs_pos.mpr h2
        tauto
      · simp only [bishopGeom]
        rw [if_pos (by simpa using heq)]
        simp [heq]
    · -- queen
      simp only [isValidMove, hf, ht, hp, hside, hfd, Bool.false_eq_true,
        if_false, hk, sliderGeom, and_true]
      by_cases heq : (mt.row - mf.row).natAbs = (mt.col - mf.col).natAbs
      · have h2 : mt.row - mf.row ≠ 0 := by
          intro hr0
          apply hne
          constructor
          · exact hr0
          · rw [hr0] at heq; simp at heq; omega
        rw [if_pos heq, diag_iff boardState mf mt heq h2]
        have hg : 0 < (mt.row - mf.row).natAbs := Int.natAbs_pos.mpr h2
        have hng : ¬rookGeom (mt.row - mf.row) (mt.col - mf.col) := by
          simp only [rookGeom]
          rintro (⟨a, b⟩ | ⟨a, b⟩) <;> exact h2 (by omega)
        simp only [bishopGeom]
        tauto
      · rw [if_neg heq]
        by_cases h1 : mt.row - mf.row = 0
        · have h2 : mt.col - mf.col ≠ 0 := fun hcc => hne ⟨h1, hcc⟩
          rw [if_pos (Or.inl h1), if_pos h1,
            straight_horiz_iff boardState mf mt h1 h2]
          have hnb : ¬bishopGeom (mt.row - mf.row) (mt.col - mf.col) := by
            simp [bishopGeom, heq]
          simp only [rookGeom]
          tauto
        · by_cases h2 : mt.col - mf.col = 0
          · rw [if_pos (Or.inr h2), if_neg h1,
              straight_vert_iff boardState mf mt h2 h1]
            have hnb : ¬bishopGeom (mt.row - mf.row) (mt.col - mf.col) := by
              simp [bishopGeom, heq]
            simp only [rookGeom]
            tauto
          · rw [if_neg (by tauto)]
            have hnb : ¬bishopGeom (mt.row - mf.row) (mt.col - mf.col) := by
              simp [bishopGeom, heq]
            have hnr : ¬rookGeom (mt.row - mf.row) (mt.col - mf.col) := by
              simp only [rookGeom]; tauto
            simp [hnb, hnr]

/-- Witness for C2: the white rook sliding a1 → a8 over an empty file. -/
theorem isValidMove_slider_witness :
    algebraicToIndices "a1" = some ⟨7, 0⟩ ∧
      algebraicToIndices "a8" = some (⟨0, 0⟩ : AlgebraicMapping) ∧
      sliderSampleBoard 7 0 = some 'R' ∧
      ('R'.toLower = 'r' ∨ 'R'.toLower = 'b' ∨ 'R'.toLower = 'q') ∧
      wrongSide PlayerTurn.w 'R' = false ∧
      (isValidMove sliderSampleBoard "a1" "a8" PlayerTurn.w = true ↔
        (sliderGeom 'R' ((0 : Int) - 7) ((0 : Int) - 0) ∧
         betweenEmpty sliderSampleBoard ⟨7, 0⟩ ⟨0, 0⟩ ∧
         friendlyDest sliderSampleBoard ⟨0, 0⟩ PlayerTurn.w = false)) :=
  ⟨by decide, by decide, by decide, Or.inl (by decide), by decide,
    isValidMove_slider sliderSampleBoard "a1" "a8" PlayerTurn.w ⟨7, 0⟩ ⟨0, 0⟩
      (by decide) (by decide) 'R' (by decide) (Or.inl (by decide)) (by decide)⟩

/-- A sliding loop that never reads the replaced cell is unchanged by the
replacement. -/
theorem rayEmpty_replacePiece (bs : Board) (m : AlgebraicMapping) (p : Char)
    (r c sR sC : Int) (dist : Nat)
    (h : ∀ i : Nat, i < dist →
      ¬(r + ((i : Int) + 1) * sR = m.row ∧ c + ((i : Int) + 1) * sC = m.col)) :
    rayEmpty (replacePiece bs m p) r c sR sC dist = rayEmpty bs r c sR sC dist := by
  unfold rayEmpty
  rw [Bool.eq_iff_iff, List.all_eq_true, List.all_eq_true]
  apply forall_congr'
  intro i
  apply imp_congr_right
  intro hi
  rw [List.mem_range] at hi
  simp only [replacePiece, decide_eq_true_eq, if_neg (h i hi)]

/-- A vertical or diagonal sliding loop (non-zero row step) never reads the
source cell, so replacing the source piece leaves it unchanged. -/
theorem rayEmptyV_replace (bs : Board) (mf mt : AlgebraicMapping) (p : Char)
    (hdr : mt.row - mf.row ≠ 0) (sC : Int) :
    rayEmpty (replacePiece bs mf p) mf.row mf.col
        ((mt.row - mf.row) / ((mt.row - mf.row).natAbs : Int)) sC
        ((mt.row - mf.row).natAbs - 1) =
      rayEmpty bs mf.row mf.col
        ((mt.row - mf.row) / ((mt.row - mf.row).natAbs : Int)) sC
        ((mt.row - mf.row).natAbs - 1) := by
  apply rayEmpty_replacePiece
  intro i hi hcontra
  obtain ⟨ha, -⟩ := hcontra
  rw [div_natAbs_eq_sign _ hdr] at ha
  have hs : (mt.row - mf.row).sign ≠ 0 := by
    simp [Int.sign_eq_zero_iff_zero]
    exact hdr
  have hz : ((i : Int) + 1) * (mt.row - mf.row).sign = 0 := by omega
  rcases mul_eq_zero.mp hz with h | h
  · omega
  · exact hs h

/-- A horizontal sliding loop (non-zero column step) never reads the source
cell, so replacing the source piece leaves it unchanged. -/
theorem rayEmptyH_replace (bs : Board) (mf mt : AlgebraicMapping) (p : Char)
    (hdc : mt.col - mf.col ≠ 0) (sR : Int) :
    rayEmpty (replacePiece bs mf p) mf.row mf.col sR
        ((mt.col - mf.col) / ((mt.col - mf.col).natAbs : Int))
        ((mt.col - mf.col).natAbs - 1) =
      rayEmpty bs mf.row mf.col sR
        ((mt.col - mf.col) / ((mt.col - mf.col).natAbs : Int))
        ((mt.col - mf.col).natAbs - 1) := by
  apply rayEmpty_replacePiece
  intro i hi hcontra
  obtain ⟨-, hb⟩ := hcontra
  rw [div_natAbs_eq_sign _ hdc] at hb
  have hs : (mt.col - mf.col).sign ≠ 0 := by
    simp [Int.sign_eq_zero_iff_zero]
    exact hdc
  have hz : ((i : Int) + 1) * (mt.col - mf.col).sign = 0 := by omega
  rcases mul_eq_zero.mp hz with h | h
  · omega
  · exact hs h

/-- **C6.** Queen movement is exactly the union of rook and bishop movement:
with a queen of the side to move on the source square, `isValidMove` agrees
with the disjunction of its results on the boards obtained by replacing that
queen with a rook, respectively a bishop, of the same colour. -/
theorem isValidMove_queen_union (boardState : Board)
    (fromAlgebraic toAlgebraic : String) (playerTurn : PlayerTurn)
    (mf mt : AlgebraicMapping)
    (hf : algebraicToIndices fromAlgebraic = some mf)
    (ht : algebraicToIndices toAlgebraic = some mt)
    (hq : (playerTurn = PlayerTurn.w ∧ boardState mf.row mf.col = some 'Q') ∨
          (playerTurn = PlayerTurn.b ∧ boardState mf.row mf.col = some 'q')) :
    isValidMove boardState fromAlgebraic toAlgebraic playerTurn =
      (isValidMove
          (replacePiece boardState mf
            (if playerTurn = PlayerTurn.w then 'R' else 'r'))
          fromAlgebraic toAlgebraic playerTurn ||
       isValidMove
          (replacePiece boardState mf
            (if playerTurn = PlayerTurn.w then 'B' else 'b'))
          fromAlgebraic toAlgebraic playerTurn) := by
  rcases hq with ⟨h1, hp⟩ | ⟨h1, hp⟩ <;> subst h1
  · -- white queen: compare against the white rook and white bishop boards
    simp only [reduceIte]
    have hR0 : replacePiece boardState mf 'R' mf.row mf.col = some 'R' := by
      simp [replacePiece]
    have hB0 : replacePiece boardState mf 'B' mf.row mf.col = some 'B' := by
      simp [replacePiece]
    have fR : friendlyDest (replacePiece boardState mf 'R') mt PlayerTurn.w =
        friendlyDest boardState mt PlayerTurn.w := by
      by_cases hmf : mt.row = mf.row ∧ mt.col = mf.col
      · unfold friendlyDest replacePiece
        rw [if_pos hmf, hmf.1, hmf.2, hp]
        simp [pieceIsWhite]
      · unfold friendlyDest replacePiece
        rw [if_neg hmf]
    have fB : friendlyDest (replacePiece boardState mf 'B') mt PlayerTurn.w =
        friendlyDest boardState mt PlayerTurn.w := by
      by_cases hmf : mt.row = mf.row ∧ mt.col = mf.col
      · unfold friendlyDest replacePiece
        rw [if_pos hmf, hmf.1, hmf.2, hp]
        simp [pieceIsWhite]
      · unfold friendlyDest replacePiece
        rw [if_neg hmf]
    have hwQ : wrongSide PlayerTurn.w 'Q' = false := by decide
    have hwR : wrongSide PlayerTurn.w 'R' = false := by decide
    have hwB : wrongSide PlayerTurn.w 'B' = false := by decide
    have hlQ : ('Q' : Char).toLower = 'q' := by decide
    have hlR : ('R' : Char).toLower = 'r' := by decide
    have hlB : ('B' : Char).toLower = 'b' := by decide
    by_cases hfd : friendlyDest boardState mt PlayerTurn.w = true
    · simp only [isValidMove, hf, ht, hp, hR0, hB0, fR, fB, hfd, hwQ, hwR,
        hwB, Bool.false_eq_true, if_false, if_true]
      rfl
    · rw [Bool.not_eq_true] at hfd
      have hmf : ¬(mt.row = mf.row ∧ mt.col = mf.col) := by
        rintro ⟨hmr, hmc⟩
        unfold friendlyDest at hfd
        rw [hmr, hmc, hp] at hfd
        simp [pieceIsWhite] at hfd
      have hnz : ¬(mt.row - mf.row = 0 ∧ mt.col - mf.col = 0) := by
        rintro ⟨a, b⟩
        exact hmf ⟨by omega, by omega⟩
      simp only [isValidMove, hf, ht, hp, hR0, hB0, fR, fB, hfd, hwQ, hwR,
        hwB, Bool.false_eq_true, if_false, hlQ, hlR, hlB]
      by_cases hd : (mt.row - mf.row).natAbs = (mt.col - mf.col).natAbs
      · have hdr : mt.row - mf.row ≠ 0 := by
          intro h0
          apply hnz
          refine ⟨h0, ?_⟩
          rw [h0] at hd
          simp at hd
          omega
        have hdc : mt.col - mf.col ≠ 0 := by
          intro h0
          apply hnz
          refine ⟨?_, h0⟩
          rw [h0] at hd
          simp at hd
          omega
        rw [if_pos hd,
          if_pos (show mt.row - mf.row ≠ 0 ∧ mt.col - mf.col ≠ 0 from ⟨hdr, hdc⟩),
          if_neg (show ¬(mt.row - mf.row).natAbs ≠ (mt.col - mf.col).natAbs by
            simpa using hd),
          rayEmptyV_replace boardState mf mt 'B' hdr]
        simp
      · rw [if_neg hd,
          if_pos (show (mt.row - mf.row).natAbs ≠ (mt.col - mf.col).natAbs from hd)]
        by_cases hdr0 : mt.row - mf.row = 0
        · have hdc : mt.col - mf.col ≠ 0 := fun h0 => hnz ⟨hdr0, h0⟩
          rw [if_pos (show mt.row - mf.row = 0 ∨ mt.col - mf.col = 0 from
              Or.inl hdr0),
            if_pos hdr0,
            if_neg (show ¬(mt.row - mf.row ≠ 0 ∧ mt.col - mf.col ≠ 0) by
              rintro ⟨a, -⟩; exact a hdr0),
            if_pos hdr0,
            rayEmptyH_replace boardState mf mt 'R' hdc]
          simp
        · by_cases hdc0 : mt.col - mf.col = 0
          · rw [if_pos (show mt.row - mf.row = 0 ∨ mt.col - mf.col = 0 from
                Or.inr hdc0),
              if_neg hdr0,
              if_neg (show ¬(mt.row - mf.row ≠ 0 ∧ mt.col - mf.col ≠ 0) by
                rintro ⟨-, b⟩; exact b hdc0),
              if_neg hdr0,
              rayEmptyV_replace boardState mf mt 'R' hdr0]
            simp
          · rw [if_neg (show ¬(mt.row - mf.row = 0 ∨ mt.col - mf.col = 0) by
                rintro (a | b); exacts [hdr0 a, hdc0 b]),
              if_pos (show mt.row - mf.row ≠ 0 ∧ mt.col - mf.col ≠ 0 from
                ⟨hdr0, hdc0⟩)]
            simp
  · -- black queen: compare against the black rook and black bishop boards
    rw [if_neg (show ¬(PlayerTurn.b = PlayerTurn.w) by decide),
      if_neg (show ¬(PlayerTurn.b = PlayerTurn.w) by decide)]
    have hR0 : replacePiece boardState mf 'r' mf.row mf.col = some 'r' := by
      simp [replacePiece]
    have hB0 : replacePiece boardState mf 'b' mf.row mf.col = some 'b' := by
      simp [replacePiece]
    have fR : friendlyDest (replacePiece boardState mf 'r') mt PlayerTurn.b =
        friendlyDest boardState mt PlayerTurn.b := by
      by_cases hmf : mt.row = mf.row ∧ mt.col = mf.col
      · unfold friendlyDest replacePiece
        rw [if_pos hmf, hmf.1, hmf.2, hp]
        simp [pieceIsWhite]
      · unfold friendlyDest replacePiece
        rw [if_neg hmf]
    have fB : friendlyDest (replacePiece boardState mf 'b') mt PlayerTurn.b =
        friendlyDest boardState mt PlayerTurn.b := by
      by_cases hmf : mt.row = mf.row ∧ mt.col = mf.col
      · unfold friendlyDest replacePiece
        rw [if_pos hmf, hmf.1, hmf.2, hp]
        simp [pieceIsWhite]
      · unfold friendlyDest replacePiece
        rw [if_neg hmf]
    have hwQ : wrongSide PlayerTurn.b 'q' = false := by decide
    have hwR : wrongSide PlayerTurn.b 'r' = false := by decide
    have hwB : wrongSide PlayerTurn.b 'b' = false := by decide
    have hlQ : ('q' : Char).toLower = 'q' := by decide
    have hlR : ('r' : Char).toLower = 'r' := by decide
    have hlB : ('b' : Char).toLower = 'b' := by decide
    by_cases hfd : friendlyDest boardState mt PlayerTurn.b = true
    · simp only [isValidMove, hf, ht, hp, hR0, hB0, fR, fB, hfd, hwQ, hwR,
        hwB, Bool.false_eq_true, if_false, if_true]
      rfl
    · rw [Bool.not_eq_true] at hfd
      have hmf : ¬(mt.row = mf.row ∧ mt.col = mf.col) := by
        rintro ⟨hmr, hmc⟩
        unfold friendlyDest at hfd
        rw [hmr, hmc, hp] at hfd
        simp [pieceIsWhite] at hfd
      have hnz : ¬(mt.row - mf.row = 0 ∧ mt.col - mf.col = 0) := by
        rintro ⟨a, b⟩
        exact hmf ⟨by omega, by omega⟩
      simp only [isValidMove, hf, ht, hp, hR0, hB0, fR, fB, hfd, hwQ, hwR,
        hwB, Bool.false_eq_true, if_false, hlQ, hlR, hlB]
      by_cases hd : (mt.row - mf.row).natAbs = (mt.col - mf.col).natAbs
      · have hdr : mt.row - mf.row ≠ 0 := by
          intro h0
          apply hnz
          refine ⟨h0, ?_⟩
          rw [h0] at hd
          simp at hd
          omega
        have hdc : mt.col - mf.col ≠ 0 := by
          intro h0
          apply hnz
          refine ⟨?_, h0⟩
          rw [h0] at hd
          simp at hd
          omega
        rw [if_pos hd,
          if_pos (show mt.row - mf.row ≠ 0 ∧ mt.col - mf.col ≠ 0 from ⟨hdr, hdc⟩),
          if_neg (show ¬(mt.row - mf.row).natAbs ≠ (mt.col - mf.col).natAbs by
            simpa using hd),
          rayEmptyV_replace boardState mf mt 'b' hdr]
        simp
      · rw [if_neg hd,
          if_pos (show (mt.row - mf.row).natAbs ≠ (mt.col - mf.col).natAbs from hd)]
        by_cases hdr0 : mt.row - mf.row = 0
        · have hdc : mt.col - mf.col ≠ 0 := fun h0 => hnz ⟨hdr0, h0⟩
          rw [if_pos (show mt.row - mf.row = 0 ∨ mt.col - mf.col = 0 from
              Or.inl hdr0),
            if_pos hdr0,
            if_neg (show ¬(mt.row - mf.row ≠ 0 ∧ mt.col - mf.col ≠ 0) by
              rintro ⟨a, -⟩; exact a hdr0),
            if_pos hdr0,
            rayEmptyH_replace boardState mf mt 'r' hdc]
          simp
        · by_cases hdc0 : mt.col - mf.col = 0
          · rw [if_pos (show mt.row - mf.row = 0 ∨ mt.col - mf.col = 0 from
                Or.inr hdc0),
              if_neg hdr0,
              if_neg (show ¬(mt.row - mf.row ≠ 0 ∧ mt.col - mf.col ≠ 0) by
                rintro ⟨-, b⟩; exact b hdc0),
              if_neg hdr0,
              rayEmptyV_replace boardState mf mt 'r' hdr0]
            simp
          · rw [if_neg (show ¬(mt.row - mf.row = 0 ∨ mt.col - mf.col = 0) by
                rintro (a | b); exacts [hdr0 a, hdc0 b]),
              if_pos (show mt.row - mf.row ≠ 0 ∧ mt.col - mf.col ≠ 0 from
                ⟨hdr0, hdc0⟩)]
            simp

/-- Witness for C6: the white queen on d4 compared against a rook and a
bishop on d4, for the diagonal move d4 → h8. -/
theorem isValidMove_queen_union_witness :
    algebraicToIndices "d4" = some ⟨4, 3⟩ ∧
      algebraicToIndices "h8" = some (⟨0, 7⟩ : AlgebraicMapping) ∧
      queenSampleBoard 4 3 = some 'Q' ∧
      isValidMove queenSampleBoard "d4" "h8" PlayerTurn.w =
        (isValidMove
            (replacePiece queenSampleBoard ⟨4, 3⟩
              (if PlayerTurn.w = PlayerTurn.w then 'R' else 'r'))
            "d4" "h8" PlayerTurn.w ||
         isValidMove
            (replacePiece queenSampleBoard ⟨4, 3⟩
              (if PlayerTurn.w = PlayerTurn.w then 'B' else 'b'))
            "d4" "h8" PlayerTurn.w) :=
  ⟨by decide, by decide, by decide,
    isValidMove_queen_union queenSampleBoard "d4" "h8" PlayerTurn.w ⟨4, 3⟩
      ⟨0, 7⟩ (by decide) (by decide) (Or.inl ⟨rfl, by decide⟩)⟩

/-- The inner rank loop cannot fault while filling a row index below 8, and
it preserves the 8 by 8 grid shape. -/
theorem fenRankStep_ok (cs : List Char) (g : GridBoard) (r colIndex : Nat)
    (hg : gridWF g) (hr : r < 8) :
    ∃ g2, fenRankStep g r colIndex cs = Except.ok g2 ∧ gridWF g2 := by
  induction cs generalizing g colIndex with
  | nil => exact ⟨g, rfl, hg⟩
  | cons ch rest ih =>
    unfold fenRankStep
    cases hpc : parseIntChar ch with
    | none =>
      by_cases hc : colIndex < 8
      · rw [if_pos hc, if_pos hr]
        apply ih
        constructor
        · rw [List.length_set]
          exact hg.1
        · intro row hrow
          rcases List.mem_or_eq_of_mem_set hrow with h | h
          · exact hg.2 row h
          · have h8 := hg.1
            have hrl : r < g.length := by omega
            rw [h, List.length_set]
            apply hg.2
            rw [List.getD_eq_getElem g [] hrl]
            exact List.getElem_mem hrl
      · rw [if_neg hc]
        exact ih g colIndex hg
    | some d => exact ih g _ hg

/-- The outer rank loop cannot fault while fewer than `8 - r` ranks remain,
and it preserves the 8 by 8 grid shape. -/
theorem fenRankLoop_ok (ranks : List (List Char)) (g : GridBoard) (r : Nat)
    (hg : gridWF g) (hlen : r + ranks.length ≤ 8) :
    ∃ g2, fenRankLoop g r ranks = Except.ok g2 ∧ gridWF g2 := by
  induction ranks generalizing g r with
  | nil => exact ⟨g, rfl, hg⟩
  | cons rankStr rest ih =>
    unfold fenRankLoop
    obtain ⟨g2, hstep, hg2⟩ :=
      fenRankStep_ok rankStr g r 0 hg (by simp at hlen; omega)
    rw [hstep]
    exact ih g2 (r + 1) hg2 (by simp at hlen ⊢; omega)

/-- **C4 (counterexample).** `fenToBoard` is not fault-free on every input:
on a piece-placement field of nine ranks whose ninth rank holds a piece
character, the unguarded write `board[8][0]` faults (in JS, a `TypeError`
from assigning into `undefined`). -/
theorem fenToBoard_fault_counterexample :
    fenToBoard "8/8/8/8/8/8/8/8/K" = Except.error () := rfl

/-- **C4 (amended).** Whenever the piece-placement field — the text before
the first space — splits on `'/'` into at most 8 rank strings, `fenToBoard`
performs the permissive parse without faulting and returns an 8 by 8 board;
characters beyond column 8 of a rank are ignored rather than faulting. -/
theorem fenToBoard_ok_of_at_most_eight_ranks (fenString : String)
    (h : (splitOnChar '/' ((splitOnChar ' ' fenString.data).headD [])).length ≤ 8) :
    ∃ g, fenToBoard fenString = Except.ok g ∧
      g.length = 8 ∧ ∀ row ∈ g, row.length = 8 := by
  unfold fenToBoard
  obtain ⟨g2, hloop, hg2⟩ :=
    fenRankLoop_ok (splitOnChar '/' ((splitOnChar ' ' fenString.data).headD []))
      emptyGrid 0 (by constructor <;> simp [emptyGrid]) (by omega)
  exact ⟨g2, hloop, hg2.1, hg2.2⟩

/-- Witness for the amended C4: the standard starting-position string, with an
overlong second rank, still parses without fault. -/
theorem fenToBoard_ok_witness :
    (splitOnChar '/'
        ((splitOnChar ' '
          "rnbqkbnr/ppppppppp/8/8/8/8/PPPPPPPP/RNBQKBNR w KQkq - 0 1".data).headD
          [])).length ≤ 8 ∧
      ∃ g, fenToBoard
          "rnbqkbnr/ppppppppp/8/8/8/8/PPPPPPPP/RNBQKBNR w KQkq - 0 1" =
          Except.ok g ∧ g.length = 8 ∧ ∀ row ∈ g, row.length = 8 :=
  ⟨by decide, fenToBoard_ok_of_at_most_eight_ranks _ (by decide)⟩

end Chess
